import Mathlib

/-!
Verification of the markup-to-structured-entry extraction engine of
`src/galician-dictionary.ts` (class `GalicianDictionary`).

The source walks a cheerio-parsed HTML tree using class selectors.  We embed
the parsed markup as a tree of element and text nodes (`HNode` / `HForest`)
and translate each cheerio query the source uses:

* `$(sel)` and `ctx.find(sel)` return the matching element descendants in
  document (pre-order) order;
* `.text()` concatenates the text content of every node of a selection;
* `.first()` takes the head of a selection; on an empty selection `.text()`
  gives `""`;
* `.find('> .C')` selects direct element children; `.find('.A .C')` (with
  cheerio's implicit `:scope`) selects descendants with class `C` having an
  ancestor of class `A` strictly inside the context; `.find('.A > .C')`
  selects those whose parent has class `A` and lies strictly inside the
  context;
* `.siblings('.C')` selects the other children of the parent that match.

String operations mirror the JavaScript ones (`trim`, `startsWith`,
`includes`, and `replace(pat, r)` which replaces only the first occurrence);
they are defined over the character list of the string so that every theorem
below can be checked by evaluation.

One cheerio behaviour matters a great deal: `.remove()` detaches the
selected nodes in place, and the source computes the label of a references
block as `children().remove().end().text()` without `.clone()`.  The
element children of the block are therefore gone by the time the same
iteration runs `.find('.Reference__Reference_type')` and
`.find('a.Reference')` on the block.  We model this with
`HNode.removeElementChildren`.  The detachment is local to the references
block being processed: every later query of the source that the claims
observe runs either on a disjoint subtree or on a block whose own subtree
is still intact, so the tree can otherwise be treated persistently.
-/

namespace Dicionario

/-! ## JavaScript string primitives -/

/-- Whitespace recognised by the JavaScript trim as it occurs in the markup. -/
def isJsWhite (c : Char) : Bool :=
  c == ' ' || c == '\t' || c == '\n' || c == '\r'

/-- Models JavaScript String.prototype.trim. -/
def jsTrim (s : String) : String :=
  ⟨((s.data.dropWhile isJsWhite).reverse.dropWhile isJsWhite).reverse⟩

/-- Whether the first list is an initial segment of the second. -/
def charsLeadWith : List Char → List Char → Bool
  | [], _ => true
  | _ :: _, [] => false
  | a :: as, b :: bs => a == b && charsLeadWith as bs

/-- Models JavaScript String.prototype.startsWith. -/
def jsStartsWith (s pat : String) : Bool :=
  charsLeadWith pat.data s.data

/-- Whether pat occurs as a contiguous segment of the second list. -/
def charsContain (pat : List Char) : List Char → Bool
  | [] => pat.isEmpty
  | c :: t => charsLeadWith pat (c :: t) || charsContain pat t

/-- Models JavaScript String.prototype.includes. -/
def jsIncludes (s pat : String) : Bool :=
  charsContain pat.data s.data

/-- Drops the first occurrence of a character from a list. -/
def removeFirstChar (c : Char) : List Char → List Char
  | [] => []
  | x :: xs => if x == c then xs else x :: removeFirstChar c xs

/-- Models the JavaScript call replace(".", ""): with a string pattern,
replace rewrites only the first occurrence, wherever it is. -/
def replaceFirstDot (s : String) : String :=
  ⟨removeFirstChar '.' s.data⟩

/-! ## The value model of the source -/

/-- Reference kinds of the source union type SYNONYM | SEE | COMPARE. -/
inductive RefType where
  | SYNONYM
  | SEE
  | COMPARE
deriving DecidableEq, Repr

/-- The references payload of the source Definition interface. -/
structure Reference where
  type : RefType
  words : List String
deriving DecidableEq, Repr

/-- The source Definition interface. -/
structure Definition where
  sense : Option String
  definition : String
  examples : List String
  references : Option Reference
deriving DecidableEq, Repr

/-- One element of the source DictionaryEntry.expressions. -/
structure Expression where
  expression : String
  definitions : List Definition
deriving DecidableEq, Repr

/-- The source DictionaryEntry interface. -/
structure DictionaryEntry where
  word : String
  partOfSpeech : Option String
  definitions : List Definition
  expressions : List Expression
deriving DecidableEq, Repr

/-! ## The markup tree -/

mutual
/-- A node of the parsed markup: an element with a tag name, class tokens
and children, or a text node. -/
inductive HNode where
  | elem (tag : String) (classes : List String) (children : HForest)
  | text (s : String)
/-- A sequence of sibling nodes. -/
inductive HForest where
  | nil
  | cons (n : HNode) (t : HForest)
end

/-- Builds a forest from a list of nodes. -/
def HForest.ofList : List HNode → HForest
  | [] => .nil
  | n :: t => .cons n (HForest.ofList t)

/-- The nodes of a forest as a list. -/
def HForest.toList : HForest → List HNode
  | .nil => []
  | .cons n t => n :: t.toList

/-- Element constructor taking the children as a list, used to write down
concrete markup trees. -/
def el (tag : String) (classes : List String) (children : List HNode) : HNode :=
  HNode.elem tag classes (HForest.ofList children)

/-- Text node constructor. -/
def tx (s : String) : HNode :=
  HNode.text s

mutual
/-- Structural equality of nodes, modelling the identity comparison cheerio
uses when a traversal excludes the element itself. -/
def beqN : HNode → HNode → Bool
  | .text s, .text t => s == t
  | .elem a b c, .elem d e f => a == d && b == e && beqF c f
  | _, _ => false
/-- Structural equality of forests. -/
def beqF : HForest → HForest → Bool
  | .nil, .nil => true
  | .cons a b, .cons c d => beqN a c && beqF b d
  | _, _ => false
end

/-- Concatenated text of a whole forest in document order. -/
def forestText : HForest → String
  | .nil => ""
  | .cons (.text s) t => s ++ forestText t
  | .cons (.elem _ _ cs) t => forestText cs ++ forestText t

/-- Text content of a single node: models cheerio .text() on one node. -/
def nodeText : HNode → String
  | .text s => s
  | .elem _ _ cs => forestText cs

/-- Concatenated text of a selection (a list of already-selected nodes). -/
def selectionText : List HNode → String
  | [] => ""
  | n :: ns => nodeText n ++ selectionText ns

/-- All element nodes of a forest, in document (pre-order) order. -/
def HForest.elems : HForest → List HNode
  | .nil => []
  | .cons (.text _) t => HForest.elems t
  | .cons (.elem a b c) t => HNode.elem a b c :: (HForest.elems c ++ HForest.elems t)

/-- The children of a node as a forest. -/
def HNode.childForest : HNode → HForest
  | .elem _ _ cs => cs
  | .text _ => .nil

/-- The children of a node as a list. -/
def HNode.childNodes (n : HNode) : List HNode :=
  n.childForest.toList

/-- Whether a node is a text node. -/
def HNode.isTextNode : HNode → Bool
  | .text _ => true
  | .elem _ _ _ => false

/-- Whether an element carries a class token (false on text nodes). -/
def hasClass (c : String) (n : HNode) : Bool :=
  match n with
  | .elem _ ks _ => ks.contains c
  | .text _ => false

/-- Whether a node is an element with the given tag name. -/
def tagIs (t : String) (n : HNode) : Bool :=
  match n with
  | .elem tg _ _ => tg == t
  | .text _ => false

/-- The element descendants of a node (excluding the node itself) matching
p, in document order: models ctx.find(selector) for a simple selector. -/
def findIn (p : HNode → Bool) (n : HNode) : List HNode :=
  n.childForest.elems.filter p

/-- The same search on an optional context: an absent context is the empty
cheerio selection, on which find returns nothing. -/
def findInOpt (p : HNode → Bool) : Option HNode → List HNode
  | some n => findIn p n
  | none => []

/-- Direct element children of an optional context matching p: models the
selector with a leading child combinator. -/
def childElemsOpt (p : HNode → Bool) : Option HNode → List HNode
  | some n => n.childNodes.filter p
  | none => []

/-- Text of the first node of a selection, empty on an empty selection:
models .first().text(). -/
def firstText (sel : List HNode) : String :=
  match sel.head? with
  | some n => nodeText n
  | none => ""

/-- Concatenated text of the direct text-node children of a list. -/
def textOfDirectChildren : List HNode → String
  | [] => ""
  | .text s :: ns => s ++ textOfDirectChildren ns
  | .elem _ _ _ :: ns => textOfDirectChildren ns

/-- Text of a node after its element children are detached: the value of
children().remove().end().text(). -/
def directChildText (n : HNode) : String :=
  textOfDirectChildren n.childNodes

/-- The node as later queries observe it once children().remove() has run:
every element child is gone, only direct text children remain. -/
def HNode.removeElementChildren : HNode → HNode
  | .elem t ks cs => .elem t ks (HForest.ofList (cs.toList.filter HNode.isTextNode))
  | .text s => .text s

/-- Descendants matching pb that have an ancestor matching pa strictly
inside the searched context: models ctx.find with a descendant combinator
under the implicit :scope cheerio adds (the pa ancestor must itself be a
descendant of the context). insideA records whether an ancestor matching pa
has already been passed. -/
def collectScoped (pa pb : HNode → Bool) : Bool → HForest → List HNode
  | _, .nil => []
  | insideA, .cons (.text _) t => collectScoped pa pb insideA t
  | insideA, .cons (.elem tg ks cs) t =>
      let e := HNode.elem tg ks cs
      (if insideA && pb e then [e] else []) ++
      collectScoped pa pb (insideA || pa e) cs ++
      collectScoped pa pb insideA t

/-- Pairs (parent, child) where the child matches pb, its parent matches pa
and the parent lies strictly inside the searched context: models ctx.find
with a child combinator, keeping the parent so that sibling and parent
queries of the source can be evaluated afterwards. -/
def collectWithParent (pa pb : HNode → Bool) : Option HNode → HForest → List (HNode × HNode)
  | _, .nil => []
  | par, .cons (.text _) t => collectWithParent pa pb par t
  | par, .cons (.elem tg ks cs) t =>
      let e := HNode.elem tg ks cs
      (match par with
       | some p => if pb e then [(p, e)] else []
       | none => []) ++
      collectWithParent pa pb (if pa e then some e else none) cs ++
      collectWithParent pa pb par t

/-- Pre-order element list of a parsed document given as a node list. -/
def listElems (doc : List HNode) : List HNode :=
  (HForest.ofList doc).elems

/-! ## extractReferences (source lines 271-317) -/

/-- One iteration of the References loop (source lines 281-313).  The call
children().remove().end().text() first detaches every element child of the
block in place and only then reads the remaining text, so refText is the
text of the direct text-node children; the two later find calls of the same
iteration (the Reference__Reference_type fallback and the a.Reference word
links) therefore run against the stripped block. -/
def refStep (r : HNode) : Option Reference :=
  let refText := jsTrim (directChildText r)
  let stripped := r.removeElementChildren
  let refType : Option RefType :=
    if jsStartsWith refText "SINÓNIMO" || jsStartsWith refText "SINÓNIMOS" then some .SYNONYM
    else if jsStartsWith refText "VÉXASE" then some .SEE
    else if jsStartsWith refText "CONFRÓNTESE" then some .COMPARE
    else
      let typeSpan := jsTrim (selectionText (findIn (hasClass "Reference__Reference_type") stripped))
      if jsIncludes typeSpan "SINÓNIMO" then some .SYNONYM
      else if jsIncludes typeSpan "VÉXASE" then some .SEE
      else if jsIncludes typeSpan "CONFRÓNTESE" then some .COMPARE
      else none
  match refType with
  | none => none
  | some ty =>
    let words := (findIn (fun e => tagIs "a" e && hasClass "Reference" e) stripped).filterMap
      (fun a => let w := jsTrim (nodeText a); if w = "" then none else some w)
    if words.isEmpty then none else some { type := ty, words := words }

/-- Source extractReferences: classify every References descendant of the
context and keep those yielding a type and a non-empty word list. -/
def extractReferences (ctx : HNode) : List Reference :=
  (findIn (hasClass "References") ctx).filterMap refStep

/-! ## Sense extraction (source lines 156-178, inlined again at 197-219) -/

/-- Extraction of one Definition from a sense node.  The source writes this
block out twice with identical selectors and logic, once for the senses of
the main entry block and once for the senses inside an expression block. -/
def extractSenseDef (senseEl : HNode) : Option Definition :=
  let senseNumber := replaceFirstDot (jsTrim (selectionText (findIn (hasClass "Sense__SenseNumber") senseEl)))
  let definitionText := jsTrim (firstText (findIn (hasClass "Definition__Definition") senseEl))
  if definitionText = "" then none
  else
    let examples := (findIn (hasClass "Example__Example") senseEl).map (fun e => jsTrim (nodeText e))
    let references := extractReferences senseEl
    some { sense := if senseNumber = "" then none else some senseNumber,
           definition := definitionText,
           examples := examples,
           references := references.head? }

/-! ## Expression extraction (source lines 182-251) -/

/-- The fallback path of an expression block (source lines 223-240): a
Definition read from a direct-child Definition node of a nested Subentry,
with examples from the sibling Example containers and references from the
parent Subentry. -/
def fallbackDef (sub : HNode) (defEl : HNode) : Option Definition :=
  let definitionText := jsTrim (firstText (findIn (hasClass "Definition__Definition") defEl))
  if definitionText = "" then none
  else
    let exampleSiblings := sub.childNodes.filter (fun c => !(beqN c defEl) && hasClass "Example" c)
    let examples := (exampleSiblings.map (fun s => (findIn (hasClass "Example__Example") s).map (fun e => jsTrim (nodeText e)))).flatten
    let references := extractReferences sub
    some { sense := none,
           definition := definitionText,
           examples := examples,
           references := references.head? }

/-- Processing of one Fraseoloxia block (source lines 182-251): skip the
Palabras relacionadas footer and blocks without text, extract a Definition
from every Sense having a Subentry ancestor inside the block, fall back to
direct-child Definition nodes of a nested Subentry when that yields
nothing, and keep the expression only with non-empty text and at least one
definition. -/
def processFraseoloxia (block : HNode) : Option Expression :=
  let expressionText := jsTrim (firstText (findIn (hasClass "Fraseoloxia__Texto") block))
  if jsStartsWith expressionText "Palabras relacionadas:" then none
  else if expressionText = "" then none
  else
    let senseDefs := (collectScoped (hasClass "Subentry") (hasClass "Sense") false block.childForest).filterMap extractSenseDef
    let expressionDefinitions :=
      if senseDefs.isEmpty then
        (collectWithParent (hasClass "Subentry") (hasClass "Definition") none block.childForest).filterMap
          (fun pc => fallbackDef pc.1 pc.2)
      else senseDefs
    if expressionText ≠ "" ∧ expressionDefinitions ≠ [] then
      some { expression := expressionText, definitions := expressionDefinitions }
    else none

/-! ## parseHtmlContent (source lines 128-263) -/

/-- The primary entry block: the first element with class Subentry. -/
def mainBlock (doc : List HNode) : Option HNode :=
  ((listElems doc).filter (hasClass "Subentry")).head?

/-- Top-level definitions: one per direct-child Sense of the primary block
whose definition text is non-empty. -/
def mainDefinitions (doc : List HNode) : List Definition :=
  (childElemsOpt (hasClass "Sense") (mainBlock doc)).filterMap extractSenseDef

/-- Expression list: the whole document is scanned for Fraseoloxia blocks,
independently of the primary block. -/
def docExpressions (doc : List HNode) : List Expression :=
  ((listElems doc).filter (hasClass "Fraseoloxia")).filterMap processFraseoloxia

/-- Source parseHtmlContent: seed the word with the trimmed title, override
it from the h2 headword of the primary block when that is non-empty and
different, read the part of speech from the primary block, then collect the
top-level definitions and the expressions. -/
def parseHtmlContent (doc : List HNode) (wordTitle : String) : DictionaryEntry :=
  let word0 := jsTrim wordTitle
  let h2Word := jsTrim (selectionText (findInOpt (fun e => tagIs "h2" e && hasClass "Entry__Word_form" e) (mainBlock doc)))
  let word := if h2Word ≠ "" ∧ h2Word ≠ word0 then h2Word else word0
  let posText := jsTrim (firstText (findInOpt (hasClass "Subentry__Part_of_speech") (mainBlock doc)))
  { word := word,
    partOfSpeech := if posText = "" then none else some posText,
    definitions := mainDefinitions doc,
    expressions := docExpressions doc }

/-! ## parseResponse (source lines 90-120) -/

/-- A JSON-like value of the upstream payload. -/
inductive JValue where
  | jnull
  | jbool (b : Bool)
  | jnum (n : Int)
  | jstr (s : String)
  | jarr (items : List JValue)
  | jobj (fields : List (String × JValue))

/-- Property lookup: any value that is not an object yields undefined. -/
def jGet (v : JValue) (key : String) : Option JValue :=
  match v with
  | .jobj fields => (fields.find? (fun kv => kv.1 == key)).map (fun kv => kv.2)
  | _ => none

/-- JavaScript truthiness of a value. -/
def jTruthy : JValue → Bool
  | .jnull => false
  | .jbool b => b
  | .jnum n => decide (n ≠ 0)
  | .jstr s => decide (s ≠ "")
  | .jarr _ => true
  | .jobj _ => true

/-- Whether typeof the value is the string object (null and arrays count). -/
def jTypeofObject : JValue → Bool
  | .jnull => true
  | .jarr _ => true
  | .jobj _ => true
  | _ => false

/-- Source parseResponse.  The HTML parser applied to the fragment string
(cheerio.load) is an external collaborator and is passed in as hp.  A
truthy non-string fragment makes cheerio.load throw and a truthy non-string
title makes wordTitle.trim() throw; both are caught by the surrounding
try/catch, which returns null. -/
def parseResponse (hp : String → List HNode) (data : JValue) (word : String) : Option DictionaryEntry :=
  if jTruthy data = false ∨ jTypeofObject data = false then none
  else
    match jGet data "items" with
    | none => none
    | some items =>
      if jTruthy items = false then none
      else
        match items with
        | .jarr [] => none
        | .jarr (item :: _) =>
          match jGet item "htmlContent" with
          | none => none
          | some hc =>
            if jTruthy hc = false then none
            else
              match hc with
              | .jstr s =>
                match jGet item "title" with
                | some (.jstr t) =>
                  some (parseHtmlContent (hp s) (if t = "" then word else t))
                | some tv =>
                  if jTruthy tv then none
                  else some (parseHtmlContent (hp s) word)
                | none => some (parseHtmlContent (hp s) word)
              | _ => none
        | _ => none

/-! ## Statements taken from the wording of the specification, for
comparison with the behaviour of the source -/

/-- Text content of a forest excluding the subtrees of anchor (link)
elements.  Written from the spec (section 4.3 step 1): the label of a
references block is its text content excluding nested link elements. -/
def forestTextNoAnchors : HForest → String
  | .nil => ""
  | .cons (.text s) t => s ++ forestTextNoAnchors t
  | .cons (.elem tg _ cs) t =>
      (if tg == "a" then "" else forestTextNoAnchors cs) ++ forestTextNoAnchors t

/-- Reference classification as the specification words it (section 4.3):
label text excluding nested links, literal prefix match in priority order,
fallback substring match on the dedicated reference-type marker, words from
the link elements with empty-text links skipped, emitted only when
classification succeeded and the word list is non-empty. -/
def classifyReferencesSpec (ctx : HNode) : List Reference :=
  (findIn (hasClass "References") ctx).filterMap (fun r =>
    let label := jsTrim (forestTextNoAnchors r.childForest)
    let refType : Option RefType :=
      if jsStartsWith label "SINÓNIMO" || jsStartsWith label "SINÓNIMOS" then some .SYNONYM
      else if jsStartsWith label "VÉXASE" then some .SEE
      else if jsStartsWith label "CONFRÓNTESE" then some .COMPARE
      else
        let typeSpan := jsTrim (selectionText (findIn (hasClass "Reference__Reference_type") r))
        if jsIncludes typeSpan "SINÓNIMO" then some .SYNONYM
        else if jsIncludes typeSpan "VÉXASE" then some .SEE
        else if jsIncludes typeSpan "CONFRÓNTESE" then some .COMPARE
        else none
    match refType with
    | none => none
    | some ty =>
      let words := (findIn (fun e => tagIs "a" e && hasClass "Reference" e) r).filterMap
        (fun a => let w := jsTrim (nodeText a); if w = "" then none else some w)
      if words.isEmpty then none else some { type := ty, words := words })

/-- The sense label as the specification words it (sections 3 and 4.2): the
marker text with any trailing period removed, trimmed. -/
def stripTrailingDot (l : List Char) : List Char :=
  match l.getLast? with
  | some c => if c = '.' then l.dropLast else l
  | none => l

/-- Sense label computed per the spec wording, for comparison with the
replaceFirstDot the source applies. -/
def specSenseLabel (s : String) : String :=
  jsTrim ⟨stripTrailingDot s.data⟩

/-! ## Concrete fragments used by the evaluation theorems -/

/-- A fragment carrying neither a Subentry nor a Fraseoloxia marker. -/
def docNoMarkers : List HNode :=
  [el "div" [] [tx "hello"]]

/-- A references block whose label text sits inside a non-link child
element, with one linked reference word. -/
def refCtxLabelInSpan : HNode :=
  el "div" [] [el "span" ["References"]
    [el "span" ["Label"] [tx "VÉXASE"], el "a" ["Reference"] [tx "fogar"]]]

/-- A sense node whose sense-number marker reads 1.2. (an interior and a
trailing period). -/
def senseDotted : HNode :=
  el "div" ["Sense"]
    [el "span" ["Sense__SenseNumber"] [tx "1.2."],
     el "span" ["Definition__Definition"] [tx "bo"]]

/-- A fragment whose primary block holds the dotted sense. -/
def docDottedSense : List HNode :=
  [el "div" ["Subentry"] [senseDotted]]

/-- A sense with a references block that the spec classifies: the label
SINÓNIMOS is the direct text of the block and one word is linked. -/
def sense9 : HNode :=
  el "div" ["Sense"]
    [el "span" ["Sense__SenseNumber"] [tx "1."],
     el "span" ["Definition__Definition"] [tx "Edificio para vivir"],
     el "span" ["References"] [tx "SINÓNIMOS ", el "a" ["Reference"] [tx "lar"]]]

/-- A fragment whose primary block holds that sense. -/
def doc9 : List HNode :=
  [el "div" ["Subentry"] [sense9]]

/-- The sense node used inside the expression blocks below. -/
def senseMolestar : HNode :=
  el "div" ["Sense"] [el "span" ["Definition__Definition"] [tx "molestar"]]

/-- An expression block whose sense is a direct child, not wrapped in a
nested Subentry container. -/
def blkSenseNoSub : HNode :=
  el "div" ["Fraseoloxia"]
    [el "span" ["Fraseoloxia__Texto"] [tx "dar a lata"], senseMolestar]

/-- The same expression block with the sense inside a Subentry container. -/
def blkSenseSub : HNode :=
  el "div" ["Fraseoloxia"]
    [el "span" ["Fraseoloxia__Texto"] [tx "dar a lata"],
     el "div" ["Subentry"] [senseMolestar]]

/-- The Palabras relacionadas footer block, with a nested sense. -/
def blkPalabras : HNode :=
  el "div" ["Fraseoloxia"]
    [el "span" ["Fraseoloxia__Texto"] [tx "Palabras relacionadas: fogar, vivenda"],
     el "div" ["Subentry"] [el "div" ["Sense"] [el "span" ["Definition__Definition"] [tx "x"]]]]

/-- A payload whose item list is empty. -/
def payloadEmptyItems : JValue :=
  JValue.jobj [("items", JValue.jarr [])]

/-! ## Consequences of the in-place children().remove() -/

/-- A forest built from text nodes only has no elements. -/
theorem elems_ofList_textOnly (l : List HNode) :
    (HForest.ofList (l.filter HNode.isTextNode)).elems = [] := by
  induction l with
  | nil => rfl
  | cons n t ih =>
    cases n with
    | text s => simpa [List.filter_cons, HNode.isTextNode, HForest.ofList, HForest.elems] using ih
    | elem a b c => simpa [List.filter_cons, HNode.isTextNode] using ih

/-- After its element children are removed, a node has no element
descendants, so any find on it comes back empty. -/
theorem findIn_removeElementChildren (p : HNode → Bool) (r : HNode) :
    findIn p r.removeElementChildren = [] := by
  cases r with
  | text s => rfl
  | elem t ks cs =>
    simp [findIn, HNode.removeElementChildren, HNode.childForest, elems_ofList_textOnly]

/-- Every iteration of the References loop comes back empty: the word links
are queried only after children().remove() has detached them, so the word
list is always empty and the block is dropped. -/
theorem refStep_eq_none (r : HNode) : refStep r = none := by
  unfold refStep
  simp only [findIn_removeElementChildren, List.filterMap_nil, List.isEmpty_nil]
  split <;> simp

/-- extractReferences returns the empty list on every context. -/
theorem extractReferences_eq_nil (ctx : HNode) : extractReferences ctx = [] := by
  exact List.filterMap_eq_nil_iff.mpr (fun r _ => refStep_eq_none r)

/-! ## Guard lemmas of the extraction paths -/

/-- A sense that produces a Definition has non-empty definition text, a
sense label given by the trimmed marker text with its first period removed
(absent when that is empty), and no references. -/
theorem extractSenseDef_inv (senseEl : HNode) (d : Definition)
    (h : extractSenseDef senseEl = some d) :
    d.definition = jsTrim (firstText (findIn (hasClass "Definition__Definition") senseEl)) ∧
    d.definition ≠ "" ∧
    d.sense = (if replaceFirstDot (jsTrim (selectionText (findIn (hasClass "Sense__SenseNumber") senseEl))) = ""
               then none
               else some (replaceFirstDot (jsTrim (selectionText (findIn (hasClass "Sense__SenseNumber") senseEl))))) ∧
    d.references = none := by
  simp only [extractSenseDef] at h
  split at h
  case isTrue => exact absurd h (by simp)
  case isFalse hne =>
    simp only [Option.some.injEq] at h
    subst h
    refine ⟨rfl, hne, rfl, ?_⟩
    simp [extractReferences_eq_nil]

/-- A fallback definition inside an expression block has non-empty text. -/
theorem fallbackDef_inv (sub defEl : HNode) (d : Definition)
    (h : fallbackDef sub defEl = some d) : d.definition ≠ "" := by
  simp only [fallbackDef] at h
  split at h
  case isTrue => exact absurd h (by simp)
  case isFalse hne =>
    simp only [Option.some.injEq] at h
    subst h
    exact hne

/-- An expression that is kept has non-empty text, at least one definition,
and every one of its definitions has non-empty text. -/
theorem processFraseoloxia_inv (block : HNode) (e : Expression)
    (h : processFraseoloxia block = some e) :
    e.expression ≠ "" ∧ e.definitions ≠ [] ∧ ∀ d ∈ e.definitions, d.definition ≠ "" := by
  simp only [processFraseoloxia] at h
  split at h
  case isTrue => exact absurd h (by simp)
  case isFalse =>
  split at h
  case isTrue => exact absurd h (by simp)
  case isFalse =>
  split at h
  case isTrue =>
    split at h
    case isFalse => exact absurd h (by simp)
    case isTrue hcond =>
      simp only [Option.some.injEq] at h
      subst h
      refine ⟨hcond.1, hcond.2, ?_⟩
      intro d hd
      obtain ⟨pc, _, hpc⟩ := List.mem_filterMap.mp hd
      exact fallbackDef_inv pc.1 pc.2 d hpc
  case isFalse =>
    split at h
    case isFalse => exact absurd h (by simp)
    case isTrue hcond =>
      simp only [Option.some.injEq] at h
      subst h
      refine ⟨hcond.1, hcond.2, ?_⟩
      intro d hd
      obtain ⟨s, _, hs⟩ := List.mem_filterMap.mp hd
      exact (extractSenseDef_inv s d hs).2.1

/-- Projection of parseHtmlContent to its definitions. -/
theorem parseHtmlContent_definitions (doc : List HNode) (fb : String) :
    (parseHtmlContent doc fb).definitions = mainDefinitions doc := rfl

/-- Projection of parseHtmlContent to its expressions. -/
theorem parseHtmlContent_expressions (doc : List HNode) (fb : String) :
    (parseHtmlContent doc fb).expressions = docExpressions doc := rfl

/-- The empty string trims to itself. -/
theorem jsTrim_empty : jsTrim "" = "" := rfl

/-! ## The claims -/

/-- C1: parseHtmlContent is a total function by construction, and on a
fragment holding no primary entry block and no expression block markers it
returns the DictionaryEntry whose word is the trimmed fallback title, with
no part of speech, no definitions and no expressions. -/
theorem c1_extract_total_worst_case (doc : List HNode) (fb : String)
    (h1 : (listElems doc).filter (hasClass "Subentry") = [])
    (h2 : (listElems doc).filter (hasClass "Fraseoloxia") = []) :
    parseHtmlContent doc fb =
      { word := jsTrim fb, partOfSpeech := none, definitions := [], expressions := [] } := by
  have hmb : mainBlock doc = none := by simp [mainBlock, h1]
  simp [parseHtmlContent, mainDefinitions, docExpressions, hmb, h2,
        findInOpt, childElemsOpt, selectionText, firstText, jsTrim_empty]

/-- Witness for C1 at a concrete markerless fragment. -/
theorem c1_witness :
    ((listElems docNoMarkers).filter (hasClass "Subentry") = [] ∧
     (listElems docNoMarkers).filter (hasClass "Fraseoloxia") = []) ∧
    parseHtmlContent docNoMarkers " casa " =
      { word := jsTrim " casa ", partOfSpeech := none, definitions := [], expressions := [] } :=
  ⟨⟨rfl, rfl⟩, c1_extract_total_worst_case docNoMarkers " casa " rfl rfl⟩

/-- C2 counterexample: a references block whose label text lives in a
non-link child element.  Per the claim, the label (text content excluding
only links) reads VÉXASE, so the block classifies as SEE and emits the
linked word; the source computes the label from the direct text only and
then consults the stripped block, so it drops the block. -/
theorem c2_counterexample :
    extractReferences refCtxLabelInSpan = [] ∧
    classifyReferencesSpec refCtxLabelInSpan = [{ type := RefType.SEE, words := ["fogar"] }] :=
  ⟨rfl, rfl⟩

/-- C2 amended: the label text is only the direct text of the references
block (every nested child element is removed from the block in place before
being read), prefix classification applies to that text, and because the
removal precedes both the reference-type fallback and the link collection,
the fallback always sees empty text and the word list is always empty, so
every references block is discarded: extractReferences returns nothing on
any context. -/
theorem c2_amended_references_always_dropped (ctx : HNode) :
    extractReferences ctx = [] :=
  extractReferences_eq_nil ctx

/-- C3 counterexample: a sense-number marker reading 1.2. produces the
label 12. (the source removes the first period, wherever it is), while the
claim predicts 1.2 (trailing period stripped, interior ones preserved). -/
theorem c3_counterexample :
    (parseHtmlContent docDottedSense "w").definitions.map (fun d => d.sense) = [some "12."] ∧
    specSenseLabel "1.2." = "1.2" ∧ ("12." : String) ≠ "1.2" :=
  ⟨rfl, rfl, by decide⟩

/-- C3 amended: the sense label equals the trimmed marker text with its
first period (wherever it occurs) removed, and is absent when that result
is empty (hence also when the marker is missing or blank). -/
theorem c3_amended_first_period_removed (senseEl : HNode) (d : Definition)
    (h : extractSenseDef senseEl = some d) :
    d.sense = (if replaceFirstDot (jsTrim (selectionText (findIn (hasClass "Sense__SenseNumber") senseEl))) = ""
               then none
               else some (replaceFirstDot (jsTrim (selectionText (findIn (hasClass "Sense__SenseNumber") senseEl))))) :=
  (extractSenseDef_inv senseEl d h).2.2.1

/-- Witness for C3 amended at the dotted sense node. -/
theorem c3_witness :
    extractSenseDef senseDotted =
      some { sense := some "12.", definition := "bo", examples := [], references := none } ∧
    ({ sense := some "12.", definition := "bo", examples := [], references := none } : Definition).sense =
      (if replaceFirstDot (jsTrim (selectionText (findIn (hasClass "Sense__SenseNumber") senseDotted))) = ""
       then none
       else some (replaceFirstDot (jsTrim (selectionText (findIn (hasClass "Sense__SenseNumber") senseDotted))))) :=
  ⟨rfl, c3_amended_first_period_removed senseDotted _ rfl⟩

/-- C4: every Definition of the returned entry, top-level or inside an
expression, has non-empty definition text: senses with blank definition
markers are skipped on every path. -/
theorem c4_definitions_nonempty_text (doc : List HNode) (fb : String) :
    ((parseHtmlContent doc fb).definitions.all (fun d => decide (d.definition ≠ "")) = true) ∧
    ((parseHtmlContent doc fb).expressions.all
      (fun e => e.definitions.all (fun d => decide (d.definition ≠ ""))) = true) := by
  constructor
  · rw [parseHtmlContent_definitions, List.all_eq_true]
    intro d hd
    simp only [mainDefinitions] at hd
    obtain ⟨s, _, hs⟩ := List.mem_filterMap.mp hd
    simpa using (extractSenseDef_inv s d hs).2.1
  · rw [parseHtmlContent_expressions, List.all_eq_true]
    intro e he
    simp only [docExpressions] at he
    obtain ⟨b, _, hb⟩ := List.mem_filterMap.mp he
    rw [List.all_eq_true]
    intro d hd
    simpa using (processFraseoloxia_inv b e hb).2.2 d hd

/-- C5: every Expression of the returned entry has non-empty expression
text and a non-empty definition list. -/
theorem c5_expression_invariant (doc : List HNode) (fb : String) :
    (parseHtmlContent doc fb).expressions.all
      (fun e => decide (e.expression ≠ "" ∧ e.definitions ≠ [])) = true := by
  rw [parseHtmlContent_expressions, List.all_eq_true]
  intro e he
  simp only [docExpressions] at he
  obtain ⟨b, _, hb⟩ := List.mem_filterMap.mp he
  have h := processFraseoloxia_inv b e hb
  simpa using And.intro h.1 h.2.1

/-- C6: an expression block whose text begins with the literal label
Palabras relacionadas: contributes no Expression, whatever is nested in
it. -/
theorem c6_palabras_relacionadas_filtered (block : HNode)
    (h : jsStartsWith (jsTrim (firstText (findIn (hasClass "Fraseoloxia__Texto") block)))
           "Palabras relacionadas:" = true) :
    processFraseoloxia block = none := by
  simp [processFraseoloxia, h]

/-- Witness for C6 at a concrete footer block with a nested sense. -/
theorem c6_witness :
    jsStartsWith (jsTrim (firstText (findIn (hasClass "Fraseoloxia__Texto") blkPalabras)))
      "Palabras relacionadas:" = true ∧
    processFraseoloxia blkPalabras = none :=
  ⟨rfl, c6_palabras_relacionadas_filtered blkPalabras rfl⟩

/-- C7: parseResponse returns the negative result (and cannot raise, being
total) whenever the payload is not an object, has no item list, has an
empty item list, or its first item has no markup fragment field. -/
theorem c7_locate_not_found (hp : String → List HNode) (data : JValue) (word : String)
    (h : (jTruthy data = false ∨ jTypeofObject data = false) ∨
         jGet data "items" = none ∨
         jGet data "items" = some (JValue.jarr []) ∨
         (∃ item rest, jGet data "items" = some (JValue.jarr (item :: rest)) ∧
            jGet item "htmlContent" = none)) :
    parseResponse hp data word = none := by
  rcases h with h | h | h | ⟨item, rest, h1, h2⟩
  · simp [parseResponse, h]
  · simp only [parseResponse]
    split
    · rfl
    · simp [h]
  · simp only [parseResponse]
    split
    · rfl
    · simp [h, jTruthy]
  · simp only [parseResponse]
    split
    · rfl
    · simp [h1, h2, jTruthy]

/-- Witness for C7 at the payload with an empty item list. -/
theorem c7_witness :
    jGet payloadEmptyItems "items" = some (JValue.jarr []) ∧
    parseResponse (fun _ => []) payloadEmptyItems "casa" = none :=
  ⟨rfl, c7_locate_not_found (fun _ => []) payloadEmptyItems "casa" (Or.inr (Or.inr (Or.inl rfl)))⟩

/-- C8 counterexample: an expression block with valid text whose sense node
is a direct child (no nested Subentry container).  The sense is a
descendant of the block and extracts a Definition on its own, yet the block
contributes nothing, because the sense query requires a Subentry ancestor
inside the block. -/
theorem c8_counterexample :
    jsTrim (firstText (findIn (hasClass "Fraseoloxia__Texto") blkSenseNoSub)) = "dar a lata" ∧
    findIn (hasClass "Sense") blkSenseNoSub = [senseMolestar] ∧
    extractSenseDef senseMolestar =
      some { sense := none, definition := "molestar", examples := [], references := none } ∧
    processFraseoloxia blkSenseNoSub = none :=
  ⟨rfl, rfl, rfl, rfl⟩

/-- C8 amended: the sense path of an expression block extracts exactly from
the sense nodes having a Subentry ancestor strictly inside the block;
every Definition obtained that way is kept on the emitted Expression when
the block passes the text filters. -/
theorem c8_amended_subentry_scoped (block : HNode) (d : Definition)
    (hd : d ∈ (collectScoped (hasClass "Subentry") (hasClass "Sense") false block.childForest).filterMap extractSenseDef)
    (hpal : jsStartsWith (jsTrim (firstText (findIn (hasClass "Fraseoloxia__Texto") block)))
              "Palabras relacionadas:" = false)
    (hne : jsTrim (firstText (findIn (hasClass "Fraseoloxia__Texto") block)) ≠ "") :
    ∃ e, processFraseoloxia block = some e ∧
      e.expression = jsTrim (firstText (findIn (hasClass "Fraseoloxia__Texto") block)) ∧
      d ∈ e.definitions := by
  have hnil : (collectScoped (hasClass "Subentry") (hasClass "Sense") false block.childForest).filterMap extractSenseDef ≠ [] :=
    List.ne_nil_of_mem hd
  have hempty : ¬((collectScoped (hasClass "Subentry") (hasClass "Sense") false block.childForest).filterMap extractSenseDef).isEmpty = true := by
    rw [List.isEmpty_iff]
    exact hnil
  refine ⟨{ expression := jsTrim (firstText (findIn (hasClass "Fraseoloxia__Texto") block)),
            definitions := (collectScoped (hasClass "Subentry") (hasClass "Sense") false block.childForest).filterMap extractSenseDef },
          ?_, rfl, hd⟩
  simp only [processFraseoloxia]
  rw [if_neg (by simp [hpal]), if_neg (by exact fun hc => hne hc), if_neg hempty,
      if_pos ⟨hne, hnil⟩]

/-- Witness for C8 amended at the block whose sense sits in a Subentry. -/
theorem c8_witness :
    ∃ e, processFraseoloxia blkSenseSub = some e ∧
      e.expression = jsTrim (firstText (findIn (hasClass "Fraseoloxia__Texto") blkSenseSub)) ∧
      ({ sense := none, definition := "molestar", examples := [], references := none } : Definition) ∈ e.definitions :=
  c8_amended_subentry_scoped blkSenseSub _ (by decide) rfl (by decide)

/-- C9: evaluation of the parser at a fragment whose sense holds a
references block that the spec classifies (label SINÓNIMOS as the direct
text of the block, one linked word): the entry comes back with references
absent, because the links were detached before being collected, while the
spec-worded classification yields the SYNONYM reference. -/
theorem c9_references_never_attached :
    parseHtmlContent doc9 "casa" =
      { word := "casa", partOfSpeech := none,
        definitions := [{ sense := some "1", definition := "Edificio para vivir",
                          examples := [], references := none }],
        expressions := [] } ∧
    classifyReferencesSpec sense9 = [{ type := RefType.SYNONYM, words := ["lar"] }] :=
  ⟨rfl, rfl⟩

/-- C10: every Reference the source emits has a non-empty word list all of
whose words are non-empty; this holds because the collection loop skips
blank links and requires a non-empty word list, and indeed no reference at
all survives the children().remove() that precedes the collection. -/
theorem c10_emitted_words_nonempty (ctx : HNode) :
    (extractReferences ctx).all
      (fun rf => decide (rf.words ≠ [] ∧ ∀ w ∈ rf.words, w ≠ "")) = true := by
  rw [extractReferences_eq_nil]
  rfl

end Dicionario
